import Mathlib

/-!
# DocuCleanAI — verification of the core server pipeline

Shallow embedding of the DocuCleanAI server (`server.js` / the Express
server source) and the browser-side Gemini adapter
(`services/geminiService.ts`), covering:

* the block model and markdown projection (`blocksToMarkdown`),
* the OCR-adapter response handling (server- and client-side
  `processPageWithGemini` tails),
* the document store `upsert` (`POST /api/documents`),
* the background processing engine (`processDocumentBackground`) as an
  explicit state-passing function over a document record, with the
  per-page OCR outcome supplied by an oracle and filesystem writes
  tracked as an event trace; a write-failure oracle models thrown
  filesystem exceptions (the fatal path of the engine).

JS status strings (`'pending'`, `'completed'`, `'error'`, `'processing'`,
`'ready'`) are modelled as enumerations; JS object mutation is modelled
as functional record update; `fs` writes append to an event list and a
`disk` field tracks the last successfully written `metadata.json`
snapshot (whole-file rewrites).
-/

namespace DocuClean

/-- `BlockLabelValues` from the server source (the closed label taxonomy). -/
inductive BlockLabel
  | TITLE | MAIN_TEXT | FOOTNOTE | HEADER | FOOTER | CAPTION | UNKNOWN
deriving DecidableEq, Repr

/-- A labeled OCR block `{text, label, box_2d}`.  `box_2d` is optional at the
parse boundary: the model may omit it (the response schema requires only
`text` and `label`). -/
structure TextBlock where
  text : String
  label : BlockLabel
  box_2d : Option (List Int) := none
deriving DecidableEq, Repr

/-- Page status strings used by the server: `'pending' | 'completed' | 'error'`. -/
inductive PageStatus
  | pending | completed | error
deriving DecidableEq, Repr

/-- A page record as stored in `metadata.json`. -/
structure Page where
  imageUrl : String := ""
  status : PageStatus := PageStatus.pending
  blocks : Option (List TextBlock) := none
deriving DecidableEq, Repr

/-- Document status strings used by the server:
`'pending' | 'processing' | 'ready' | 'error'`. -/
inductive DocStatus
  | pending | processing | ready | error
deriving DecidableEq, Repr

/-- The document record handled by the storage routes and the background
engine (`metadata.json` contents). -/
structure Document where
  id : String := ""
  name : String := ""
  type : String := "file"
  pages : List Page := []
  status : DocStatus := DocStatus.pending
  processedPages : Nat := 0
  modelUsed : String := ""
  startProcessing : Bool := false
deriving DecidableEq, Repr

/-! ## Block model and markdown projection (`blocksToMarkdown`) -/

/-- One arm of the `switch (block.label)` in `blocksToMarkdown`. -/
def blockToMd (b : TextBlock) : String :=
  match b.label with
  | BlockLabel.TITLE => "# " ++ b.text ++ "\n\n"
  | BlockLabel.HEADER => "_" ++ b.text ++ "_\n\n"
  | BlockLabel.FOOTER => "_" ++ b.text ++ "_\n\n"
  | BlockLabel.CAPTION => "*" ++ b.text ++ "*\n\n"
  | BlockLabel.FOOTNOTE => "^ " ++ b.text ++ "\n\n"
  | _ => b.text ++ "\n\n"

/-- `blocksToMarkdown(blocks)` from the server source: maps each block to its
markdown form and joins.  (The `!Array.isArray(blocks)` guard returns `""` for
a non-array argument; in this typed embedding the argument is always a list.
`block.text || ''` is the identity on strings modulo the empty string, which
maps to itself.) -/
def blocksToMarkdown (blocks : List TextBlock) : String :=
  String.join (blocks.map blockToMd)

/-! ## OCR adapter response handling -/

/-- The JSON object parsed out of the model response: `{blocks: [...]}` where
the `blocks` key may be absent (`none`). -/
structure GeminiParsed where
  blocks : Option (List TextBlock) := none
deriving DecidableEq, Repr

/-- Response tail of the server-side `processPageWithGemini`
(`return JSON.parse(textResponse).blocks;`): the parsed `blocks` value is
returned as-is, with no per-block normalization. -/
def serverParsePageResponse (parsed : GeminiParsed) : Option (List TextBlock) :=
  parsed.blocks

/-- Response tail of the client-side `processPageWithGemini`
(`services/geminiService.ts`): `(parsed.blocks || []).map(b => ({...b,
box_2d: b.box_2d || [0,0,0,0]}))` — a missing `blocks` key becomes `[]` and a
missing `box_2d` is defaulted to `[0,0,0,0]`.  (The `id: crypto.randomUUID()`
React key added there is not modelled.) -/
def clientParsePageResponse (parsed : GeminiParsed) : List TextBlock :=
  (parsed.blocks.getD []).map fun b =>
    { b with box_2d := some (b.box_2d.getD [0, 0, 0, 0]) }

/-! ## Document store: `POST /api/documents` (upsert) -/

/-- Character class `[A-Za-z-+\/]` of the data-URL regex
`/^data:([A-Za-z-+\/]+);base64,(.+)$/` (letters, `-`, `+`, `/`;
note digits are NOT in the class). -/
def isMimeChar (c : Char) : Bool :=
  c.isAlpha || c = '-' || c = '+' || c = '/'

/-- Characters matched by `.` in a JavaScript regex without the `s` flag
(anything but the four line terminators). -/
def isDotChar (c : Char) : Bool :=
  !(c = '\n' || c = '\r' || c = '\u2028' || c = '\u2029')

/-- JS `s.startsWith(pre)`, computed on the underlying character lists. -/
def jsStartsWith (s pre : String) : Bool :=
  pre.data.isPrefixOf s.data

/-- `imageUrl.match(/^data:([A-Za-z-+\/]+);base64,(.+)$/)` from the upsert
route, returning the two capture groups `(mimeType, base64Data)` on a match.
Since `;` is not in the mime character class, a successful match takes the
maximal run of class characters after `data:` followed literally by
`;base64,` and a nonempty payload of `.`-matchable characters.  Computed on
the underlying character lists. -/
def dataUrlMatch (s : String) : Option (String × String) :=
  if jsStartsWith s "data:" then
    let rest := s.data.drop 5
    let mime := rest.takeWhile isMimeChar
    let after := rest.drop mime.length
    if !mime.isEmpty && ";base64,".data.isPrefixOf after then
      let payload := after.drop 8
      if !payload.isEmpty && payload.all isDotChar then
        some (⟨mime⟩, ⟨payload⟩)
      else none
    else none
  else none

/-- JS `str.split(c)` on a one-character separator, on character lists. -/
def splitChar (c : Char) : List Char → List (List Char)
  | [] => [[]]
  | x :: xs =>
      let r := splitChar c xs
      if x = c then [] :: r
      else
        match r with
        | [] => [[x]]
        | y :: ys => (x :: y) :: ys

/-- `mimeType.split('/')[1] || 'bin'` — the file extension derived from the
mime type. -/
def extFromMime (m : String) : String :=
  match (splitChar '/' m.data).drop 1 with
  | [] => "bin"
  | e :: _ => if e.isEmpty then "bin" else ⟨e⟩

/-- A filesystem write performed by the upsert route, in order. -/
inductive FsWrite
  | imageFile (filename : String) (base64Data : String)
  | mdFile (filename : String) (content : String)
  | metaFile (item : Document)
deriving DecidableEq, Repr

/-- The body of the per-page loop of `POST /api/documents` for page `i`
(0-based): a `data:` image URL matching the base64 pattern is written to
`page_<i+1>.<ext>` and the page's `imageUrl` is rewritten to
`/api/data/<id>/<filename>`; a completed page carrying blocks gets its
markdown written to `page_<i+1>.md`. -/
def upsertPage (docId : String) (i : Nat) (p : Page) : Page × List FsWrite :=
  let imgStep : Page × List FsWrite :=
    if jsStartsWith p.imageUrl "data:" then
      match dataUrlMatch p.imageUrl with
      | some (mime, b64) =>
          let fname := "page_" ++ toString (i + 1) ++ "." ++ extFromMime mime
          ({ p with imageUrl := "/api/data/" ++ docId ++ "/" ++ fname },
           [FsWrite.imageFile fname b64])
      | none => (p, [])
    else (p, [])
  let mdStep : List FsWrite :=
    match p.status, p.blocks with
    | PageStatus.completed, some bs =>
        [FsWrite.mdFile ("page_" ++ toString (i + 1) ++ ".md") (blocksToMarkdown bs)]
    | _, _ => []
  (imgStep.1, imgStep.2 ++ mdStep)

/-- The page loop of the upsert route, indexed from `i`. -/
def upsertPagesAux (docId : String) : Nat → List Page → List Page × List FsWrite
  | _, [] => ([], [])
  | i, p :: rest =>
      let hd := upsertPage docId i p
      let tl := upsertPagesAux docId (i + 1) rest
      (hd.1 :: tl.1, hd.2 ++ tl.2)

/-- `POST /api/documents`: rejects an item without an id (`!item.id`, modelled
as the empty string); for a `type === 'file'` item runs the page loop; writes
`metadata.json` last with the (possibly rewritten) item.  Returns the stored
item and the ordered list of filesystem writes.  (The fire-and-forget
`startProcessing` trigger of the background engine is modelled separately by
`processDocumentBackground`.) -/
def upsertDocument (item : Document) : Option (Document × List FsWrite) :=
  if item.id = "" then none
  else if item.type = "file" then
    let looped := upsertPagesAux item.id 0 item.pages
    let item2 := { item with pages := looped.1 }
    some (item2, looped.2 ++ [FsWrite.metaFile item2])
  else
    some (item, [FsWrite.metaFile item])

/-! ## Background processing engine (`processDocumentBackground`)

The engine is modelled as an explicit state-passing function.  The outcome of
the per-page work (image-file existence and the Gemini call) is supplied by an
oracle `outcome : Nat → PageOutcome`; filesystem write failures (thrown
exceptions, the fatal path) are supplied by an oracle `wfail : Nat → Bool`
indexed by a running write-attempt counter.  `Except.error` carries the state
at the point where an exception escapes the per-page `catch` (the fatal
path). -/

/-- Outcome of the per-page work for one page: the image file is missing
(`fs.existsSync` false, thrown before the Gemini call), the Gemini call
throws, or the Gemini call returns a block list. -/
inductive PageOutcome
  | imageMissing
  | ocrError
  | ok (blocks : List TextBlock)
deriving DecidableEq, Repr

/-- A filesystem write performed by the engine. -/
inductive WriteEvent
  | metaWrite (d : Document)
  | mdWrite (filename : String) (content : String)
deriving DecidableEq, Repr

/-- Engine state: the in-memory `docData`, the last successfully persisted
`metadata.json` snapshot (`disk`), the ordered successful writes, the indices
on which the Gemini call was invoked, and the write-attempt counter. -/
structure RunState where
  doc : Document
  disk : Document
  events : List WriteEvent
  ocrCalls : List Nat
  wc : Nat
deriving DecidableEq, Repr

/-- `fs.promises.writeFile(metadataPath, JSON.stringify(docData))`: on success
the on-disk snapshot becomes the in-memory document; on failure (exception)
nothing changes on disk. -/
def writeMeta (wfail : Nat → Bool) (st : RunState) : Except RunState RunState :=
  if wfail st.wc then Except.error { st with wc := st.wc + 1 }
  else Except.ok { st with
    wc := st.wc + 1,
    disk := st.doc,
    events := st.events ++ [WriteEvent.metaWrite st.doc] }

/-- `fs.promises.writeFile(path.join(docDir, filename), content)` for a
per-page markdown file. -/
def writeMd (wfail : Nat → Bool) (filename content : String) (st : RunState) :
    Except RunState RunState :=
  if wfail st.wc then Except.error { st with wc := st.wc + 1 }
  else Except.ok { st with
    wc := st.wc + 1,
    events := st.events ++ [WriteEvent.mdWrite filename content] }

/-- `updatePage ps i f` applies `f` to the element at index `i`
(JS `docData.pages[i] = ...`). -/
def updatePage : List Page → Nat → (Page → Page) → List Page
  | [], _, _ => []
  | p :: ps, 0, f => f p :: ps
  | p :: ps, Nat.succ i, f => p :: updatePage ps i f

/-- The document as mutated by the per-page `catch` for page `i`:
`docData.pages[i].status = 'error'; docData.processedPages = i + 1`. -/
def errDoc (i : Nat) (d : Document) : Document :=
  { d with
    pages := updatePage d.pages i fun q => { q with status := PageStatus.error },
    processedPages := i + 1 }

/-- The document as mutated by the success branch for page `i`:
`docData.pages[i].blocks = blocks; docData.pages[i].status = 'completed';
docData.processedPages = i + 1`. -/
def okDoc (i : Nat) (bs : List TextBlock) (d : Document) : Document :=
  { d with
    pages := updatePage d.pages i fun q =>
      { q with status := PageStatus.completed, blocks := some bs },
    processedPages := i + 1 }

/-- The per-page `catch` block: mark page `i` `'error'`, set
`processedPages = i + 1`, and persist the metadata snapshot (which may itself
throw, escaping to the fatal path). -/
def pageCatch (wfail : Nat → Bool) (i : Nat) (st : RunState) :
    Except RunState RunState :=
  writeMeta wfail { st with doc := errDoc i st.doc }

/-- Visiting one non-completed page `i`: on `imageMissing` the thrown error is
caught before the Gemini call; on `ocrError` the Gemini call is invoked and
throws; on `ok blocks` the page is marked `'completed'` with the blocks
attached, `processedPages` is advanced, the page markdown and the metadata
snapshot are written (either write failing falls into the same `catch`). -/
def visitPage (outcome : Nat → PageOutcome) (wfail : Nat → Bool) (i : Nat)
    (st : RunState) : Except RunState RunState :=
  match outcome i with
  | PageOutcome.imageMissing => pageCatch wfail i st
  | PageOutcome.ocrError =>
      pageCatch wfail i { st with ocrCalls := st.ocrCalls ++ [i] }
  | PageOutcome.ok blocks =>
      let stOk : RunState := { st with
        ocrCalls := st.ocrCalls ++ [i],
        doc := okDoc i blocks st.doc }
      match writeMd wfail ("page_" ++ toString (i + 1) ++ ".md")
          (blocksToMarkdown blocks) stOk with
      | Except.error stE => pageCatch wfail i stE
      | Except.ok st1 =>
          match writeMeta wfail st1 with
          | Except.error stE => pageCatch wfail i stE
          | Except.ok st2 => Except.ok st2

/-- The main page loop `for (let i = 0; ...)`: pages already `'completed'` are
skipped; other pages are visited.  `ps` is the untouched suffix of the page
list starting at index `i` (each index is read before it is ever written). -/
def processPages (outcome : Nat → PageOutcome) (wfail : Nat → Bool) :
    List Page → Nat → RunState → Except RunState RunState
  | [], _, st => Except.ok st
  | p :: rest, i, st =>
      if p.status = PageStatus.completed then
        processPages outcome wfail rest (i + 1) st
      else
        match visitPage outcome wfail i st with
        | Except.error stE => Except.error stE
        | Except.ok st1 => processPages outcome wfail rest (i + 1) st1

/-- `page.status === 'error'` as a boolean (used by
`docData.pages.every(p => p.status === 'error')`). -/
def isError (p : Page) : Bool :=
  match p.status with
  | PageStatus.error => true
  | _ => false

/-- The engine state at entry: the in-memory document equals the metadata
just read, which is also what is on disk; no writes have happened. -/
def initState (doc : Document) : RunState :=
  { doc := doc, disk := doc, events := [], ocrCalls := [], wc := 0 }

/-- Lines 194–198 of the server: `if (docData.status !== 'processing')` set
the status to `'processing'` and persist. -/
def markProcessing (wfail : Nat → Bool) (doc : Document) :
    Except RunState RunState :=
  if doc.status = DocStatus.processing then Except.ok (initState doc)
  else writeMeta wfail { initState doc with doc := { doc with status := DocStatus.processing } }

/-- The final status update after the page loop: `'error'` iff
`docData.pages.every(p => p.status === 'error')`, else `'ready'`; persist. -/
def finalizeStatus (wfail : Nat → Bool) (st2 : RunState) :
    Except RunState RunState :=
  writeMeta wfail { st2 with doc := { st2.doc with
    status := if st2.doc.pages.all isError then DocStatus.error else DocStatus.ready } }

/-- The `try` block of `processDocumentBackground` after the metadata read
succeeded: set status `'processing'` (persisting, if not already), run the
page loop, then compute and persist the terminal status. -/
def runBody (outcome : Nat → PageOutcome) (wfail : Nat → Bool) (doc : Document) :
    Except RunState RunState :=
  match markProcessing wfail doc with
  | Except.error st => Except.error st
  | Except.ok st1 =>
      match processPages outcome wfail doc.pages 0 st1 with
      | Except.error st => Except.error st
      | Except.ok st2 => finalizeStatus wfail st2

/-- Result of one terminated background run: the final on-disk
`metadata.json`, the successful writes, the Gemini invocations, and whether
the run ended through the fatal `catch`. -/
structure RunOutcome where
  disk : Document
  events : List WriteEvent
  ocrCalls : List Nat
  fatal : Bool
deriving DecidableEq, Repr

/-- A full engine run on a document whose metadata was read successfully: the
`try` body followed, on the fatal path, by the best-effort handler that
re-reads the on-disk metadata, sets `status = 'error'` and writes it back
(swallowing a failure of that write). -/
def runEngine (outcome : Nat → PageOutcome) (wfail : Nat → Bool)
    (doc : Document) : RunOutcome :=
  match runBody outcome wfail doc with
  | Except.ok st =>
      { disk := st.disk, events := st.events, ocrCalls := st.ocrCalls, fatal := false }
  | Except.error st =>
      if wfail st.wc then
        { disk := st.disk, events := st.events, ocrCalls := st.ocrCalls, fatal := true }
      else
        let d2 := { st.disk with status := DocStatus.error }
        { disk := d2, events := st.events ++ [WriteEvent.metaWrite d2],
          ocrCalls := st.ocrCalls, fatal := true }

/-- The `metadata.json` snapshots among a write trace, in order. -/
def metaSnapshots (evs : List WriteEvent) : List Document :=
  evs.filterMap fun e =>
    match e with
    | WriteEvent.metaWrite d => some d
    | WriteEvent.mdWrite _ _ => none

/-- Top level of `processDocumentBackground` including the `activeProcessing`
concurrency guard: a second call while `docId` is in the set returns
immediately (no run, no writes); otherwise the id is added, the run proceeds
(aborting silently with an explicit delete if the metadata could not be read
after all retries) and the `finally` block removes the id on every exit
path.  Returns the guard set after the call and the run outcome (`none` when
no run body executed). -/
def processDocumentBackground (active : List String) (docId : String)
    (metadataOk : Bool) (diskDoc : Document)
    (outcome : Nat → PageOutcome) (wfail : Nat → Bool) :
    List String × Option RunOutcome :=
  if docId ∈ active then (active, none)
  else
    let activeRun := docId :: active
    if metadataOk then
      (activeRun.erase docId, some (runEngine outcome wfail diskDoc))
    else
      ((activeRun.erase docId).erase docId, none)

/-- Number of leading `'completed'` pages (the index of the first page the
page loop will actually visit). -/
def leadingCompleted : List Page → Nat
  | [] => 0
  | p :: ps => if p.status = PageStatus.completed then leadingCompleted ps + 1 else 0

/-- The in-memory page value produced by visiting a non-completed page whose
work has outcome `o` (and whose writes all succeed). -/
def visitUpd (o : PageOutcome) (q : Page) : Page :=
  match o with
  | PageOutcome.ok bs => { q with status := PageStatus.completed, blocks := some bs }
  | _ => { q with status := PageStatus.error }

/-! ## Concrete instances used in scenarios, counterexamples and witnesses -/

/-- No filesystem write ever fails. -/
def exNoWriteFail : Nat → Bool := fun _ => false

/-- Every page's image file is missing. -/
def exOutcomeMissing : Nat → PageOutcome := fun _ => PageOutcome.imageMissing

/-- Every page OCRs successfully with an empty block list. -/
def exOutcomeOkEmpty : Nat → PageOutcome := fun _ => PageOutcome.ok []

/-- A sample `MAIN_TEXT` block. -/
def exBlockT : TextBlock := { text := "t", label := BlockLabel.MAIN_TEXT }

/-- A 2-page document exactly as the engine itself persists it after a
completed run in which page 0 failed and page 1 succeeded: page statuses
`[error, completed]`, `processedPages = 2`, status `ready`. -/
def exDocEC : Document :=
  { id := "d",
    pages := [{ status := PageStatus.error }, { status := PageStatus.completed }],
    status := DocStatus.ready,
    processedPages := 2 }

/-- A fresh 1-page document. -/
def exDocFresh1 : Document := { id := "d", pages := [{ imageUrl := "p1" }] }

/-- A fresh 3-page document. -/
def exDocFresh3 : Document :=
  { id := "d", pages := [{ imageUrl := "p1" }, { imageUrl := "p2" }, { imageUrl := "p3" }] }

/-- A document with no pages. -/
def exDocEmpty : Document := { id := "d", pages := [] }

/-- A partially completed document: page 0 `completed`, page 1 `pending`,
`processedPages = 1` (an idempotent-resume entry state). -/
def exDocResume : Document :=
  { id := "d",
    pages := [{ imageUrl := "p1", status := PageStatus.completed }, { imageUrl := "p2" }],
    processedPages := 1 }

/-- OCR succeeds on pages 0 and 2 and throws on page 1. -/
def exOutcome3 : Nat → PageOutcome :=
  fun i => if i == 1 then PageOutcome.ocrError else PageOutcome.ok [exBlockT]

/-- The fourth write attempt (the final status update of a successful 1-page
run: processing snapshot, page markdown, page snapshot, then final) throws. -/
def exWfailFinal : Nat → Bool := fun n => n == 3

/-- A parsed model response whose single block has no `box_2d`. -/
def exParsedNoBox : GeminiParsed :=
  { blocks := some [{ text := "x", label := BlockLabel.MAIN_TEXT }] }

/-- A page whose image is a well-formed base64 data URL. -/
def exUpsertPage0 : Page := { imageUrl := "data:image/png;base64,AAA" }

/-- An upsert item whose page image is a well-formed base64 data URL. -/
def exUpsertItem : Document :=
  { id := "d", type := "file", pages := [exUpsertPage0] }

/-- The stored form of `exUpsertItem`: the page image rewritten to a path. -/
def exUpsertStored : Document :=
  { id := "d", type := "file", pages := [{ imageUrl := "/api/data/d/page_1.png" }] }

/-- The filesystem writes performed by upserting `exUpsertItem`. -/
def exUpsertWrites : List FsWrite :=
  [FsWrite.imageFile "page_1.png" "AAA", FsWrite.metaFile exUpsertStored]

/-- An upsert item whose page image is embedded data (`data:` URL) that does
NOT match the base64 pattern of the normalization regex. -/
def exUpsertBadItem : Document :=
  { id := "d", type := "file", pages := [{ imageUrl := "data:text/plain,hello" }] }

/-! ## Basic lemmas about the embedding -/

theorem isError_iff (p : Page) : isError p = true ↔ p.status = PageStatus.error := by
  cases p with
  | mk imageUrl status blocks => cases status <;> simp [isError]

theorem updatePage_length (f : Page → Page) :
    ∀ (ps : List Page) (i : Nat), (updatePage ps i f).length = ps.length := by
  intro ps
  induction ps with
  | nil => intro i; rfl
  | cons p rest ih =>
      intro i
      cases i with
      | zero => rfl
      | succ j => simp [updatePage, ih j]

theorem updatePage_getElem?_ne (f : Page → Page) :
    ∀ (ps : List Page) (i k : Nat), k ≠ i → (updatePage ps i f)[k]? = ps[k]? := by
  intro ps
  induction ps with
  | nil => intro i k _; rfl
  | cons p rest ih =>
      intro i k hk
      cases i with
      | zero =>
          cases k with
          | zero => exact absurd rfl hk
          | succ k' => simp [updatePage]
      | succ j =>
          cases k with
          | zero => simp [updatePage]
          | succ k' =>
              simp only [updatePage, List.getElem?_cons_succ]
              exact ih j k' (fun h => hk (by simp [h]))

theorem updatePage_getElem?_eq (f : Page → Page) :
    ∀ (ps : List Page) (i : Nat), (updatePage ps i f)[i]? = (ps[i]?).map f := by
  intro ps
  induction ps with
  | nil => intro i; simp [updatePage]
  | cons p rest ih =>
      intro i
      cases i with
      | zero => simp [updatePage]
      | succ j => simp [updatePage, ih j]

theorem updatePage_drop (f : Page → Page) :
    ∀ (ps : List Page) (i : Nat), (updatePage ps i f).drop (i + 1) = ps.drop (i + 1) := by
  intro ps
  induction ps with
  | nil => intro i; rfl
  | cons p rest ih =>
      intro i
      cases i with
      | zero => rfl
      | succ j => simpa [updatePage] using ih j

theorem metaSnapshots_append (evs evs2 : List WriteEvent) :
    metaSnapshots (evs ++ evs2) = metaSnapshots evs ++ metaSnapshots evs2 := by
  simp [metaSnapshots]

theorem metaSnapshots_md (filename content : String) :
    metaSnapshots [WriteEvent.mdWrite filename content] = [] := rfl

theorem metaSnapshots_meta (d : Document) :
    metaSnapshots [WriteEvent.metaWrite d] = [d] := rfl

/-! ### Inversion lemmas for the engine's write primitives -/

theorem writeMeta_ok_shape {wfail : Nat → Bool} {st st' : RunState}
    (h : writeMeta wfail st = Except.ok st') :
    st' = { st with
            wc := st.wc + 1,
            disk := st.doc,
            events := st.events ++ [WriteEvent.metaWrite st.doc] } := by
  unfold writeMeta at h
  split at h
  · exact absurd h (by simp)
  · exact (Except.ok.inj h).symm

theorem writeMeta_err_shape {wfail : Nat → Bool} {st st' : RunState}
    (h : writeMeta wfail st = Except.error st') :
    st' = { st with wc := st.wc + 1 } := by
  unfold writeMeta at h
  split at h
  · exact (Except.error.inj h).symm
  · exact absurd h (by simp)

theorem writeMd_ok_shape {wfail : Nat → Bool} {f c : String} {st st' : RunState}
    (h : writeMd wfail f c st = Except.ok st') :
    st' = { st with
            wc := st.wc + 1,
            events := st.events ++ [WriteEvent.mdWrite f c] } := by
  unfold writeMd at h
  split at h
  · exact absurd h (by simp)
  · exact (Except.ok.inj h).symm

theorem writeMd_err_shape {wfail : Nat → Bool} {f c : String} {st st' : RunState}
    (h : writeMd wfail f c st = Except.error st') :
    st' = { st with wc := st.wc + 1 } := by
  unfold writeMd at h
  split at h
  · exact (Except.error.inj h).symm
  · exact absurd h (by simp)

/-! ### The snapshot well-formedness invariant

`SnapWf n st` collects what the monotonicity and bound arguments need about a
mid-run engine state: the metadata snapshots written so far form a
`processedPages`-monotone chain bounded by `n`, the last snapshot is the
current on-disk document, and the on-disk `processedPages` is at most the
in-memory one (which is itself at most `n`). -/

structure SnapWf (n : Nat) (st : RunState) : Prop where
  chain : List.Chain' (fun a b => a.processedPages ≤ b.processedPages)
    (metaSnapshots st.events)
  lastDisk : ∀ d, (metaSnapshots st.events).getLast? = some d → d = st.disk
  bound : ∀ d ∈ metaSnapshots st.events, d.processedPages ≤ n
  diskBound : st.disk.processedPages ≤ n
  diskLe : st.disk.processedPages ≤ st.doc.processedPages
  docBound : st.doc.processedPages ≤ n

theorem SnapWf.set_doc {n : Nat} {st : RunState} (hw : SnapWf n st) (d : Document)
    (h1 : st.disk.processedPages ≤ d.processedPages)
    (h2 : d.processedPages ≤ n) :
    SnapWf n { st with doc := d } :=
  ⟨hw.chain, hw.lastDisk, hw.bound, hw.diskBound, h1, h2⟩

theorem SnapWf.set_ocr {n : Nat} {st : RunState} (hw : SnapWf n st) (calls : List Nat) :
    SnapWf n { st with ocrCalls := calls } :=
  ⟨hw.chain, hw.lastDisk, hw.bound, hw.diskBound, hw.diskLe, hw.docBound⟩

theorem writeMeta_wf {wfail : Nat → Bool} {n : Nat} {st : RunState} (hw : SnapWf n st) :
    (∀ st', writeMeta wfail st = Except.ok st' → SnapWf n st' ∧ st'.doc = st.doc) ∧
    (∀ st', writeMeta wfail st = Except.error st' → SnapWf n st' ∧ st'.doc = st.doc) := by
  constructor
  · intro st' h
    have hs := writeMeta_ok_shape h
    subst hs
    refine ⟨⟨?_, ?_, ?_, ?_, ?_, ?_⟩, rfl⟩
    · simp only [metaSnapshots_append, metaSnapshots_meta]
      rw [List.chain'_append]
      refine ⟨hw.chain, List.chain'_singleton _, ?_⟩
      intro x hx y hy
      simp only [List.head?_cons, Option.mem_def, Option.some.injEq] at hy
      subst hy
      have hx' : (metaSnapshots st.events).getLast? = some x := hx
      rw [hw.lastDisk x hx']
      exact hw.diskLe
    · intro d hd
      simp only [metaSnapshots_append, metaSnapshots_meta] at hd
      rw [List.getLast?_concat] at hd
      exact (Option.some.inj hd).symm
    · intro d hd
      simp only [metaSnapshots_append, metaSnapshots_meta, List.mem_append,
        List.mem_singleton] at hd
      rcases hd with hd | hd
      · exact hw.bound d hd
      · subst hd; exact hw.docBound
    · exact hw.docBound
    · exact Nat.le_refl _
    · exact hw.docBound
  · intro st' h
    have hs := writeMeta_err_shape h
    subst hs
    exact ⟨⟨hw.chain, hw.lastDisk, hw.bound, hw.diskBound, hw.diskLe, hw.docBound⟩, rfl⟩

theorem writeMd_wf {wfail : Nat → Bool} {f c : String} {n : Nat} {st : RunState}
    (hw : SnapWf n st) :
    (∀ st', writeMd wfail f c st = Except.ok st' → SnapWf n st' ∧ st'.doc = st.doc) ∧
    (∀ st', writeMd wfail f c st = Except.error st' → SnapWf n st' ∧ st'.doc = st.doc) := by
  constructor
  · intro st' h
    have hs := writeMd_ok_shape h
    subst hs
    refine ⟨⟨?_, ?_, ?_, hw.diskBound, hw.diskLe, hw.docBound⟩, rfl⟩
    · simpa only [metaSnapshots_append, metaSnapshots_md, List.append_nil] using hw.chain
    · intro d hd
      simp only [metaSnapshots_append, metaSnapshots_md, List.append_nil] at hd
      exact hw.lastDisk d hd
    · intro d hd
      simp only [metaSnapshots_append, metaSnapshots_md, List.append_nil] at hd
      exact hw.bound d hd
  · intro st' h
    have hs := writeMd_err_shape h
    subst hs
    exact ⟨⟨hw.chain, hw.lastDisk, hw.bound, hw.diskBound, hw.diskLe, hw.docBound⟩, rfl⟩

theorem pageCatch_wf {wfail : Nat → Bool} {n i : Nat} {st : RunState}
    (hw : SnapWf n st)
    (hdisk : st.disk.processedPages ≤ i + 1) (hn : i + 1 ≤ n) :
    (∀ st', pageCatch wfail i st = Except.ok st' →
      SnapWf n st' ∧ st'.doc.processedPages = i + 1) ∧
    (∀ st', pageCatch wfail i st = Except.error st' → SnapWf n st') := by
  unfold pageCatch
  have hset : SnapWf n { st with doc := errDoc i st.doc } :=
    hw.set_doc (errDoc i st.doc) hdisk hn
  constructor
  · intro st' h
    obtain ⟨hwf, hdoc⟩ := (writeMeta_wf hset).1 st' h
    exact ⟨hwf, by rw [hdoc]; rfl⟩
  · intro st' h
    exact ((writeMeta_wf hset).2 st' h).1

theorem visitPage_wf {outcome : Nat → PageOutcome} {wfail : Nat → Bool}
    {n i : Nat} {st : RunState}
    (hw : SnapWf n st) (hpp : st.doc.processedPages ≤ i + 1) (hn : i + 1 ≤ n) :
    (∀ st', visitPage outcome wfail i st = Except.ok st' →
      SnapWf n st' ∧ st'.doc.processedPages = i + 1) ∧
    (∀ st', visitPage outcome wfail i st = Except.error st' → SnapWf n st') := by
  have hdisk : st.disk.processedPages ≤ i + 1 := Nat.le_trans hw.diskLe hpp
  cases houtcome : outcome i with
  | imageMissing =>
      simp only [visitPage, houtcome]
      exact pageCatch_wf hw hdisk hn
  | ocrError =>
      simp only [visitPage, houtcome]
      exact pageCatch_wf (hw.set_ocr (st.ocrCalls ++ [i])) hdisk hn
  | ok blocks =>
      simp only [visitPage, houtcome]
      have hok : SnapWf n { st with
          ocrCalls := st.ocrCalls ++ [i],
          doc := okDoc i blocks st.doc } :=
        (hw.set_ocr (st.ocrCalls ++ [i])).set_doc (okDoc i blocks st.doc) hdisk hn
      cases hmd : writeMd wfail ("page_" ++ toString (i + 1) ++ ".md")
          (blocksToMarkdown blocks) { st with
            ocrCalls := st.ocrCalls ++ [i],
            doc := okDoc i blocks st.doc } with
      | error stE =>
          dsimp only
          obtain ⟨hwfE, hdocE⟩ := (writeMd_wf hok).2 stE hmd
          have hdiskE : stE.disk.processedPages ≤ i + 1 := by
            have hle := hwfE.diskLe
            rw [hdocE] at hle
            exact hle
          exact pageCatch_wf hwfE hdiskE hn
      | ok st1 =>
          dsimp only
          obtain ⟨hwf1, hdoc1⟩ := (writeMd_wf hok).1 st1 hmd
          cases hmeta : writeMeta wfail st1 with
          | error stE =>
              dsimp only
              obtain ⟨hwfE, hdocE⟩ := (writeMeta_wf hwf1).2 stE hmeta
              have hdiskE : stE.disk.processedPages ≤ i + 1 := by
                have hle := hwfE.diskLe
                rw [hdocE, hdoc1] at hle
                exact hle
              exact pageCatch_wf hwfE hdiskE hn
          | ok st2 =>
              dsimp only
              obtain ⟨hwf2, hdoc2⟩ := (writeMeta_wf hwf1).1 st2 hmeta
              constructor
              · intro st' h
                cases h
                refine ⟨hwf2, ?_⟩
                rw [hdoc2, hdoc1]
                rfl
              · intro st' h
                cases h

theorem processPages_wf (outcome : Nat → PageOutcome) (wfail : Nat → Bool) (n : Nat) :
    ∀ (ps : List Page) (i : Nat) (st : RunState), SnapWf n st →
      st.doc.processedPages ≤ i + leadingCompleted ps + 1 →
      i + ps.length = n →
      (∀ st', processPages outcome wfail ps i st = Except.ok st' → SnapWf n st') ∧
      (∀ st', processPages outcome wfail ps i st = Except.error st' → SnapWf n st') := by
  intro ps
  induction ps with
  | nil =>
      intro i st hw _ _
      constructor
      · intro st' h
        simp only [processPages] at h
        cases h
        exact hw
      · intro st' h
        simp only [processPages] at h
        exact Except.noConfusion h
  | cons p rest ih =>
      intro i st hw hpp hn
      have hlen : (i + 1) + rest.length = n := by
        simp only [List.length_cons] at hn
        omega
      by_cases hcomp : p.status = PageStatus.completed
      · have hlc : leadingCompleted (p :: rest) = leadingCompleted rest + 1 := by
          simp [leadingCompleted, hcomp]
        have hpp' : st.doc.processedPages ≤ (i + 1) + leadingCompleted rest + 1 := by
          rw [hlc] at hpp
          omega
        have hrec := ih (i + 1) st hw hpp' hlen
        constructor
        · intro st' h
          simp only [processPages, if_pos hcomp] at h
          exact hrec.1 st' h
        · intro st' h
          simp only [processPages, if_pos hcomp] at h
          exact hrec.2 st' h
      · have hlc : leadingCompleted (p :: rest) = 0 := by
          simp [leadingCompleted, hcomp]
        have hpp1 : st.doc.processedPages ≤ i + 1 := by
          rw [hlc] at hpp
          omega
        have hn1 : i + 1 ≤ n := by omega
        have hv := @visitPage_wf outcome wfail n i st hw hpp1 hn1
        cases hvis : visitPage outcome wfail i st with
        | error stE =>
            constructor
            · intro st' h
              simp only [processPages, if_neg hcomp, hvis] at h
              exact Except.noConfusion h
            · intro st' h
              simp only [processPages, if_neg hcomp, hvis] at h
              cases h
              exact hv.2 stE hvis
        | ok st1 =>
            obtain ⟨hwf1, hpp1'⟩ := hv.1 st1 hvis
            have hpp'' : st1.doc.processedPages ≤ (i + 1) + leadingCompleted rest + 1 := by
              rw [hpp1']
              omega
            have hrec := ih (i + 1) st1 hwf1 hpp'' hlen
            constructor
            · intro st' h
              simp only [processPages, if_neg hcomp, hvis] at h
              exact hrec.1 st' h
            · intro st' h
              simp only [processPages, if_neg hcomp, hvis] at h
              exact hrec.2 st' h

theorem markProcessing_wf {wfail : Nat → Bool} {doc : Document}
    (h2 : doc.processedPages ≤ doc.pages.length) :
    (∀ st', markProcessing wfail doc = Except.ok st' →
      SnapWf doc.pages.length st' ∧ st'.doc.pages = doc.pages ∧
      st'.doc.processedPages = doc.processedPages) ∧
    (∀ st', markProcessing wfail doc = Except.error st' →
      SnapWf doc.pages.length st') := by
  have hw0 : SnapWf doc.pages.length (initState doc) := by
    refine ⟨?_, ?_, ?_, h2, Nat.le_refl _, h2⟩
    · exact List.chain'_nil
    · intro d hd
      simp [initState, metaSnapshots] at hd
    · intro d hd
      simp [initState, metaSnapshots] at hd
  unfold markProcessing
  by_cases hst : doc.status = DocStatus.processing
  · rw [if_pos hst]
    constructor
    · intro st' h
      cases h
      exact ⟨hw0, rfl, rfl⟩
    · intro st' h
      cases h
  · rw [if_neg hst]
    have hw1 : SnapWf doc.pages.length
        { initState doc with doc := { doc with status := DocStatus.processing } } :=
      hw0.set_doc _ (Nat.le_refl _) h2
    constructor
    · intro st' h
      obtain ⟨hwf, hdoc⟩ := (writeMeta_wf hw1).1 st' h
      refine ⟨hwf, ?_, ?_⟩ <;> rw [hdoc]
    · intro st' h
      exact ((writeMeta_wf hw1).2 st' h).1

theorem finalizeStatus_wf {wfail : Nat → Bool} {n : Nat} {st2 : RunState}
    (hw : SnapWf n st2) :
    (∀ st', finalizeStatus wfail st2 = Except.ok st' → SnapWf n st' ∧
      st'.disk = { st2.doc with
        status := if st2.doc.pages.all isError then DocStatus.error else DocStatus.ready }) ∧
    (∀ st', finalizeStatus wfail st2 = Except.error st' → SnapWf n st') := by
  unfold finalizeStatus
  have hw1 : SnapWf n { st2 with doc := { st2.doc with
      status := if st2.doc.pages.all isError then DocStatus.error else DocStatus.ready } } :=
    hw.set_doc _ hw.diskLe hw.docBound
  constructor
  · intro st' h
    have hs := writeMeta_ok_shape h
    refine ⟨((writeMeta_wf hw1).1 st' h).1, ?_⟩
    rw [hs]
  · intro st' h
    exact ((writeMeta_wf hw1).2 st' h).1

theorem runBody_wf {outcome : Nat → PageOutcome} {wfail : Nat → Bool} {doc : Document}
    (h1 : doc.processedPages ≤ leadingCompleted doc.pages + 1)
    (h2 : doc.processedPages ≤ doc.pages.length) :
    (∀ st', runBody outcome wfail doc = Except.ok st' → SnapWf doc.pages.length st') ∧
    (∀ st', runBody outcome wfail doc = Except.error st' → SnapWf doc.pages.length st') := by
  have hmp := @markProcessing_wf wfail doc h2
  cases hm : markProcessing wfail doc with
  | error stE =>
      constructor
      · intro st' h
        simp only [runBody, hm] at h
        exact Except.noConfusion h
      · intro st' h
        simp only [runBody, hm] at h
        cases h
        exact hmp.2 stE hm
  | ok st1 =>
      obtain ⟨hwf1, hpages1, hpp1⟩ := hmp.1 st1 hm
      have hloopIn : st1.doc.processedPages ≤ 0 + leadingCompleted doc.pages + 1 := by
        rw [hpp1]
        omega
      have hlen : 0 + doc.pages.length = doc.pages.length := by omega
      have hloop := processPages_wf outcome wfail doc.pages.length doc.pages 0 st1
        hwf1 hloopIn hlen
      cases hl : processPages outcome wfail doc.pages 0 st1 with
      | error stE =>
          constructor
          · intro st' h
            simp only [runBody, hm, hl] at h
            exact Except.noConfusion h
          · intro st' h
            simp only [runBody, hm, hl] at h
            cases h
            exact hloop.2 stE hl
      | ok st2 =>
          have hwf2 := hloop.1 st2 hl
          constructor
          · intro st' h
            simp only [runBody, hm, hl] at h
            exact ((finalizeStatus_wf hwf2).1 st' h).1
          · intro st' h
            simp only [runBody, hm, hl] at h
            exact (finalizeStatus_wf hwf2).2 st' h

/-! ## Claim C6 — snapshot monotonicity and bound -/

/-- **C6 (amended).**  Within one background run, the persisted
`metadata.json` snapshots never exceed `pages.length` in `processedPages`
(given the entry value respects the bound), and `processedPages` is
monotonically non-decreasing from one snapshot to the next provided the entry
value is at most one past the index of the first non-`completed` page (as is
the case for a fresh document, `processedPages = 0`, or a resume whose
completed pages form a prefix).  Without that entry condition monotonicity
fails (see the counterexample): the loop overwrites `processedPages` with
`i + 1` at every visited page `i`, and a page with status `error` before a
`completed` page is revisited. -/
theorem c6_monotonicity_amended (doc : Document) (outcome : Nat → PageOutcome)
    (wfail : Nat → Bool)
    (h1 : doc.processedPages ≤ leadingCompleted doc.pages + 1)
    (h2 : doc.processedPages ≤ doc.pages.length) :
    List.Chain' (fun a b => a.processedPages ≤ b.processedPages)
      (metaSnapshots (runEngine outcome wfail doc).events)
    ∧ ∀ d ∈ metaSnapshots (runEngine outcome wfail doc).events,
      d.processedPages ≤ doc.pages.length := by
  have hrb := @runBody_wf outcome wfail doc h1 h2
  cases hb : runBody outcome wfail doc with
  | ok st =>
      have hwf := hrb.1 st hb
      simp only [runEngine, hb]
      exact ⟨hwf.chain, hwf.bound⟩
  | error st =>
      have hwf := hrb.2 st hb
      simp only [runEngine, hb]
      by_cases hwfail : wfail st.wc
      · rw [if_pos hwfail]
        exact ⟨hwf.chain, hwf.bound⟩
      · rw [if_neg hwfail]
        dsimp only
        constructor
        · simp only [metaSnapshots_append, metaSnapshots_meta]
          rw [List.chain'_append]
          refine ⟨hwf.chain, List.chain'_singleton _, ?_⟩
          intro x hx y hy
          simp only [List.head?_cons, Option.mem_def, Option.some.injEq] at hy
          subst hy
          have hx' : (metaSnapshots st.events).getLast? = some x := hx
          rw [hwf.lastDisk x hx']
        · intro d hd
          simp only [metaSnapshots_append, metaSnapshots_meta, List.mem_append,
            List.mem_singleton] at hd
          rcases hd with hd | hd
          · exact hwf.bound d hd
          · subst hd
            exact hwf.diskBound

/-- Witness for C6 (amended): a fresh 1-page document satisfies both entry
conditions and the run's snapshots are monotone and bounded. -/
theorem c6_monotonicity_amended_witness :
    List.Chain' (fun a b => a.processedPages ≤ b.processedPages)
      (metaSnapshots (runEngine exOutcomeMissing exNoWriteFail exDocFresh1).events)
    ∧ ∀ d ∈ metaSnapshots (runEngine exOutcomeMissing exNoWriteFail exDocFresh1).events,
      d.processedPages ≤ exDocFresh1.pages.length :=
  c6_monotonicity_amended exDocFresh1 exOutcomeMissing exNoWriteFail
    (by decide) (by decide)

/-- **C6 counterexample.**  On `exDocEC` — a document state the engine itself
produces (page 0 `error`, page 1 `completed`, `processedPages = 2`) — a new
run persists snapshots with `processedPages` values `[2, 1, 1]`: the claimed
monotonicity of `processedPages` across persisted snapshots fails. -/
theorem c6_monotonicity_counterexample :
    (metaSnapshots (runEngine exOutcomeMissing exNoWriteFail exDocEC).events).map
      Document.processedPages = [2, 1, 1]
    ∧ ¬ List.Chain' (fun a b => a.processedPages ≤ b.processedPages)
      (metaSnapshots (runEngine exOutcomeMissing exNoWriteFail exDocEC).events) := by
  have hm : (metaSnapshots (runEngine exOutcomeMissing exNoWriteFail exDocEC).events).map
      Document.processedPages = [2, 1, 1] := by decide
  refine ⟨hm, ?_⟩
  intro hch
  have h2 := List.chain'_map_of_chain' Document.processedPages (fun a b hab => hab) hch
  rw [hm] at h2
  exact absurd (List.chain'_cons.mp h2).1 (by decide)

/-! ## Shape lemmas for the run body -/

theorem pageCatch_ok_pp {wfail : Nat → Bool} {i : Nat} {st st' : RunState}
    (h : pageCatch wfail i st = Except.ok st') :
    st'.doc.processedPages = i + 1 := by
  unfold pageCatch at h
  have hs := writeMeta_ok_shape h
  rw [hs]
  rfl

theorem visitPage_ok_pp {outcome : Nat → PageOutcome} {wfail : Nat → Bool} {i : Nat}
    {st st' : RunState} (h : visitPage outcome wfail i st = Except.ok st') :
    st'.doc.processedPages = i + 1 := by
  cases houtcome : outcome i with
  | imageMissing =>
      simp only [visitPage, houtcome] at h
      exact pageCatch_ok_pp h
  | ocrError =>
      simp only [visitPage, houtcome] at h
      exact pageCatch_ok_pp h
  | ok blocks =>
      simp only [visitPage, houtcome] at h
      cases hmd : writeMd wfail ("page_" ++ toString (i + 1) ++ ".md")
          (blocksToMarkdown blocks) { st with
            ocrCalls := st.ocrCalls ++ [i],
            doc := okDoc i blocks st.doc } with
      | error stE =>
          simp only [hmd] at h
          exact pageCatch_ok_pp h
      | ok st1 =>
          simp only [hmd] at h
          cases hmeta : writeMeta wfail st1 with
          | error stE =>
              simp only [hmeta] at h
              exact pageCatch_ok_pp h
          | ok st2 =>
              simp only [hmeta] at h
              cases h
              have h1 := writeMd_ok_shape hmd
              have h2 := writeMeta_ok_shape hmeta
              rw [h2, h1]
              rfl

theorem processPages_last_pp {outcome : Nat → PageOutcome} {wfail : Nat → Bool} :
    ∀ (ps : List Page) (i : Nat) (st st' : RunState),
      processPages outcome wfail ps i st = Except.ok st' →
      ps ≠ [] →
      (∀ p, ps.getLast? = some p → p.status ≠ PageStatus.completed) →
      st'.doc.processedPages = i + ps.length := by
  intro ps
  induction ps with
  | nil =>
      intro i st st' _ hne _
      exact absurd rfl hne
  | cons p rest ih =>
      intro i st st' h hne hlast
      cases rest with
      | nil =>
          have hp : ¬ p.status = PageStatus.completed := hlast p rfl
          cases hvis : visitPage outcome wfail i st with
          | error stE =>
              simp only [processPages, if_neg hp, hvis] at h
              exact Except.noConfusion h
          | ok st1 =>
              simp only [processPages, if_neg hp, hvis] at h
              cases h
              exact visitPage_ok_pp hvis
      | cons q rest2 =>
          have hlast' : ∀ p', (q :: rest2).getLast? = some p' →
              p'.status ≠ PageStatus.completed := by
            intro p' hp'
            exact hlast p' (by rw [List.getLast?_cons_cons]; exact hp')
          by_cases hcomp : p.status = PageStatus.completed
          · simp only [processPages, if_pos hcomp] at h
            have hrec := ih (i + 1) st st' h (by simp) hlast'
            simp only [List.length_cons] at hrec ⊢
            omega
          · cases hvis : visitPage outcome wfail i st with
            | error stE =>
                simp only [processPages, if_neg hcomp, hvis] at h
                exact Except.noConfusion h
            | ok st1 =>
                simp only [processPages, if_neg hcomp, hvis] at h
                have hrec := ih (i + 1) st1 st' h (by simp) hlast'
                simp only [List.length_cons] at hrec ⊢
                omega

theorem markProcessing_ok_doc {wfail : Nat → Bool} {doc : Document} {st1 : RunState}
    (h : markProcessing wfail doc = Except.ok st1) :
    st1.doc = { doc with status := DocStatus.processing } := by
  unfold markProcessing at h
  split at h
  · cases h
    next hst =>
      show doc = { doc with status := DocStatus.processing }
      rw [← hst]
  · have hs := writeMeta_ok_shape h
    rw [hs]

theorem runBody_ok_final {outcome : Nat → PageOutcome} {wfail : Nat → Bool}
    {doc : Document} {st' : RunState}
    (h : runBody outcome wfail doc = Except.ok st') :
    ∃ st1 st2, markProcessing wfail doc = Except.ok st1 ∧
      processPages outcome wfail doc.pages 0 st1 = Except.ok st2 ∧
      st'.disk = { st2.doc with
        status := if st2.doc.pages.all isError then DocStatus.error
                  else DocStatus.ready } := by
  cases hm : markProcessing wfail doc with
  | error stE =>
      simp only [runBody, hm] at h
      exact Except.noConfusion h
  | ok st1 =>
      cases hl : processPages outcome wfail doc.pages 0 st1 with
      | error stE =>
          simp only [runBody, hm, hl] at h
          exact Except.noConfusion h
      | ok st2 =>
          simp only [runBody, hm, hl] at h
          unfold finalizeStatus at h
          have hs := writeMeta_ok_shape h
          refine ⟨st1, st2, rfl, hl, ?_⟩
          rw [hs]

theorem runEngine_fatal_false {outcome : Nat → PageOutcome} {wfail : Nat → Bool}
    {doc : Document}
    (h : (runEngine outcome wfail doc).fatal = false) :
    ∃ st, runBody outcome wfail doc = Except.ok st ∧
      runEngine outcome wfail doc =
        { disk := st.disk, events := st.events, ocrCalls := st.ocrCalls,
          fatal := false } := by
  cases hb : runBody outcome wfail doc with
  | ok st =>
      exact ⟨st, rfl, by simp [runEngine, hb]⟩
  | error st =>
      exfalso
      simp only [runEngine, hb] at h
      by_cases hw : wfail st.wc
      · rw [if_pos hw] at h
        exact Bool.noConfusion h
      · rw [if_neg hw] at h
        exact Bool.noConfusion h

/-! ## Claim C1 — terminal status -/

/-- **C1 (amended).**  For every background run that terminates WITHOUT
taking the fatal-error path, the final persisted status is `Error` iff every
page's final status is `Error`; in particular if at least one page is
`Completed`, the final status is `Ready`.  (The original claim extended this
to runs ending via the fatal-error path; that part is false — the fatal
handler sets `status = 'error'` unconditionally, see the counterexample.) -/
theorem c1_terminal_status_amended (doc : Document) (outcome : Nat → PageOutcome)
    (wfail : Nat → Bool)
    (h : (runEngine outcome wfail doc).fatal = false) :
    (((runEngine outcome wfail doc).disk.status = DocStatus.error) ↔
      ∀ p ∈ (runEngine outcome wfail doc).disk.pages, p.status = PageStatus.error)
    ∧ ((∃ p ∈ (runEngine outcome wfail doc).disk.pages,
        p.status = PageStatus.completed) →
      (runEngine outcome wfail doc).disk.status = DocStatus.ready) := by
  obtain ⟨st, hb, heq⟩ := runEngine_fatal_false h
  rw [heq]
  obtain ⟨st1, st2, hm, hl, hdisk⟩ := runBody_ok_final hb
  dsimp only
  rw [hdisk]
  constructor
  · show (if st2.doc.pages.all isError then DocStatus.error else DocStatus.ready)
        = DocStatus.error ↔ ∀ p ∈ st2.doc.pages, p.status = PageStatus.error
    constructor
    · intro hst
      by_cases hall : st2.doc.pages.all isError
      · intro p hp
        exact (isError_iff p).mp (List.all_eq_true.mp hall p hp)
      · exfalso
        rw [if_neg hall] at hst
        exact DocStatus.noConfusion hst
    · intro hall
      have hA : st2.doc.pages.all isError = true :=
        List.all_eq_true.mpr fun p hp => (isError_iff p).mpr (hall p hp)
      rw [if_pos hA]
  · show (∃ p ∈ st2.doc.pages, p.status = PageStatus.completed) →
      (if st2.doc.pages.all isError then DocStatus.error else DocStatus.ready)
        = DocStatus.ready
    intro hex
    obtain ⟨p, hp, hpc⟩ := hex
    have hall : ¬ st2.doc.pages.all isError = true := by
      intro hA
      have := List.all_eq_true.mp hA p hp
      rw [isError_iff, hpc] at this
      exact PageStatus.noConfusion this
    rw [if_neg hall]

/-- Witness for C1 (amended): a non-fatal run on the 2-page document
`exDocEC` (page 0 revisited successfully, page 1 already completed). -/
theorem c1_terminal_status_amended_witness :
    (((runEngine exOutcomeOkEmpty exNoWriteFail exDocEC).disk.status = DocStatus.error) ↔
      ∀ p ∈ (runEngine exOutcomeOkEmpty exNoWriteFail exDocEC).disk.pages,
        p.status = PageStatus.error)
    ∧ ((∃ p ∈ (runEngine exOutcomeOkEmpty exNoWriteFail exDocEC).disk.pages,
        p.status = PageStatus.completed) →
      (runEngine exOutcomeOkEmpty exNoWriteFail exDocEC).disk.status = DocStatus.ready) :=
  c1_terminal_status_amended exDocEC exOutcomeOkEmpty exNoWriteFail (by decide)

/-- **C1 counterexample.**  A 1-page run in which the page succeeds but the
final status write throws: the run terminates via the fatal-error path with
persisted status `error` even though its only page is `Completed` — the
claimed equivalence does not extend to the fatal path. -/
theorem c1_fatal_path_counterexample :
    (runEngine exOutcomeOkEmpty exWfailFinal exDocFresh1).fatal = true
    ∧ (runEngine exOutcomeOkEmpty exWfailFinal exDocFresh1).disk.status = DocStatus.error
    ∧ ∃ p ∈ (runEngine exOutcomeOkEmpty exWfailFinal exDocFresh1).disk.pages,
        p.status = PageStatus.completed := by decide

/-! ## Claim C2 — processedPages after a completed run -/

/-- **C2 (amended).**  After a background run that completes its page loop
and the final status update (no fatal error), the persisted `processedPages`
equals `pages.length` PROVIDED the document's last page is not already
`Completed` at entry — which covers fresh documents and resumes whose
`Completed` pages form a proper prefix.  (Unconditionally the claim is false,
see the counterexample: the loop sets `processedPages = i + 1` only at
visited pages, so a trailing already-`Completed` page leaves the counter at
one past the last visited index.) -/
theorem c2_processedPages_amended (doc : Document) (outcome : Nat → PageOutcome)
    (wfail : Nat → Bool)
    (hne : doc.pages ≠ [])
    (hlast : doc.pages.getLast?.map Page.status ≠ some PageStatus.completed)
    (h : (runEngine outcome wfail doc).fatal = false) :
    (runEngine outcome wfail doc).disk.processedPages = doc.pages.length := by
  obtain ⟨st, hb, heq⟩ := runEngine_fatal_false h
  rw [heq]
  obtain ⟨st1, st2, hm, hl, hdisk⟩ := runBody_ok_final hb
  dsimp only
  rw [hdisk]
  show st2.doc.processedPages = doc.pages.length
  have hlast' : ∀ p, doc.pages.getLast? = some p → p.status ≠ PageStatus.completed := by
    intro p hp hc
    apply hlast
    rw [hp, Option.map_some', hc]
  have hpp := processPages_last_pp doc.pages 0 st1 st2 hl hne hlast'
  omega

/-- Witness for C2 (amended): a fresh 1-page run ends with
`processedPages = 1 = pages.length`. -/
theorem c2_processedPages_amended_witness :
    (runEngine exOutcomeOkEmpty exNoWriteFail exDocFresh1).disk.processedPages =
      exDocFresh1.pages.length :=
  c2_processedPages_amended exDocFresh1 exOutcomeOkEmpty exNoWriteFail
    (by decide) (by decide) (by decide)

/-- **C2 counterexample.**  Re-running the engine-produced document `exDocEC`
(page statuses `[error, completed]`, `processedPages = 2`): the run completes
its page loop and final update (`fatal = false`) yet persists
`processedPages = 1` while `pages.length = 2`. -/
theorem c2_processedPages_counterexample :
    (runEngine exOutcomeOkEmpty exNoWriteFail exDocEC).fatal = false
    ∧ exDocEC.pages.length = 2
    ∧ (runEngine exOutcomeOkEmpty exNoWriteFail exDocEC).disk.processedPages = 1 := by
  decide

/-! ## Claim C10 — empty documents end in Error -/

/-- **C10 (confirmed).**  A background run on a document with no pages that
reaches the final status update sets status `error`: `pages.every(p =>
p.status === 'error')` is vacuously true on an empty page list. -/
theorem c10_empty_document_error (doc : Document) (outcome : Nat → PageOutcome)
    (wfail : Nat → Bool)
    (hp : doc.pages = [])
    (h : (runEngine outcome wfail doc).fatal = false) :
    (runEngine outcome wfail doc).disk.status = DocStatus.error := by
  obtain ⟨st, hb, heq⟩ := runEngine_fatal_false h
  rw [heq]
  obtain ⟨st1, st2, hm, hl, hdisk⟩ := runBody_ok_final hb
  dsimp only
  rw [hdisk]
  rw [hp] at hl
  simp only [processPages] at hl
  cases hl
  have hdoc1 := markProcessing_ok_doc hm
  show (if st1.doc.pages.all isError then DocStatus.error else DocStatus.ready)
      = DocStatus.error
  have hpages1 : st1.doc.pages = [] := by
    rw [hdoc1]
    exact hp
  rw [hpages1]
  rfl

/-- Witness for C10: the empty document, any outcome oracle, no write
failures. -/
theorem c10_empty_document_error_witness :
    (runEngine exOutcomeOkEmpty exNoWriteFail exDocEmpty).disk.status = DocStatus.error :=
  c10_empty_document_error exDocEmpty exOutcomeOkEmpty exNoWriteFail
    (by decide) (by decide)

/-! ## Claim C7 — the markdown projection -/

theorem join_append_str (a b : List String) :
    String.join (a ++ b) = String.join a ++ String.join b := by
  apply String.ext
  simp

theorem join_singleton_str (s : String) : String.join [s] = s := by
  apply String.ext
  simp

theorem blocksToMarkdown_singleton (b : TextBlock) :
    blocksToMarkdown [b] = blockToMd b := by
  unfold blocksToMarkdown
  rw [List.map_singleton, join_singleton_str]

/-- **C7 (confirmed).**  `blocksToMarkdown` is a total function of the block
list (hence deterministic) that concatenates, in input order, one fragment per
block: `TITLE → "# <text>\n\n"`, `HEADER`/`FOOTER → "_<text>_\n\n"`,
`CAPTION → "*<text>*\n\n"`, `FOOTNOTE → "^ <text>\n\n"`,
`MAIN_TEXT`/`UNKNOWN → "<text>\n\n"` — each block's text followed by a blank
line; in particular a single TITLE block with text `"Hello"` yields exactly
`"# Hello\n\n"`. -/
theorem c7_markdown_projection :
    (∀ xs ys : List TextBlock,
      blocksToMarkdown (xs ++ ys) = blocksToMarkdown xs ++ blocksToMarkdown ys)
    ∧ (∀ (t : String) (box : Option (List Int)),
        blocksToMarkdown [{ text := t, label := BlockLabel.TITLE, box_2d := box }]
          = "# " ++ t ++ "\n\n"
      ∧ blocksToMarkdown [{ text := t, label := BlockLabel.HEADER, box_2d := box }]
          = "_" ++ t ++ "_\n\n"
      ∧ blocksToMarkdown [{ text := t, label := BlockLabel.FOOTER, box_2d := box }]
          = "_" ++ t ++ "_\n\n"
      ∧ blocksToMarkdown [{ text := t, label := BlockLabel.CAPTION, box_2d := box }]
          = "*" ++ t ++ "*\n\n"
      ∧ blocksToMarkdown [{ text := t, label := BlockLabel.FOOTNOTE, box_2d := box }]
          = "^ " ++ t ++ "\n\n"
      ∧ blocksToMarkdown [{ text := t, label := BlockLabel.MAIN_TEXT, box_2d := box }]
          = t ++ "\n\n"
      ∧ blocksToMarkdown [{ text := t, label := BlockLabel.UNKNOWN, box_2d := box }]
          = t ++ "\n\n")
    ∧ blocksToMarkdown
        [{ text := "Hello", label := BlockLabel.TITLE, box_2d := some [0, 0, 100, 500] }]
        = "# Hello\n\n" := by
  refine ⟨?_, ?_, ?_⟩
  · intro xs ys
    unfold blocksToMarkdown
    rw [List.map_append, join_append_str]
  · intro t box
    refine ⟨?_, ?_, ?_, ?_, ?_, ?_, ?_⟩ <;> rw [blocksToMarkdown_singleton] <;> rfl
  · rw [blocksToMarkdown_singleton]
    rfl

/-! ## Claim C8 — box_2d defaulting in the OCR adapters -/

/-- **C8 counterexample.**  The server-side `processPageWithGemini` (the one
the background engine calls, `return JSON.parse(textResponse).blocks`)
returns the parsed blocks unchanged: a block with no `box_2d` in the
response stays without one in the adapter's returned list. -/
theorem c8_server_box2d_counterexample :
    serverParsePageResponse exParsedNoBox =
      some [{ text := "x", label := BlockLabel.MAIN_TEXT, box_2d := none }]
    ∧ ∃ bs, serverParsePageResponse exParsedNoBox = some bs ∧
        ∃ b ∈ bs, b.box_2d = none :=
  ⟨rfl, [{ text := "x", label := BlockLabel.MAIN_TEXT, box_2d := none }], rfl,
    { text := "x", label := BlockLabel.MAIN_TEXT, box_2d := none },
    List.mem_singleton.mpr rfl, rfl⟩

/-- **C8 (amended).**  The defaulting described by the claim is performed
only by the client-side adapter (`services/geminiService.ts`): every block it
returns carries a `box_2d` value (`b.box_2d || [0,0,0,0]`).  The server-side
adapter returns blocks exactly as parsed (see the counterexample). -/
theorem c8_client_box2d_amended (parsed : GeminiParsed) :
    ∀ b ∈ clientParsePageResponse parsed, b.box_2d.isSome = true := by
  intro b hb
  unfold clientParsePageResponse at hb
  obtain ⟨a, -, rfl⟩ := List.mem_map.mp hb
  rfl

/-- Witness for C8 (amended): the client adapter applied to the no-box
response yields a block whose `box_2d` is present. -/
theorem c8_client_box2d_amended_witness :
    (({ text := "x", label := BlockLabel.MAIN_TEXT, box_2d := some [0, 0, 0, 0] } :
      TextBlock).box_2d).isSome = true :=
  c8_client_box2d_amended exParsedNoBox
    { text := "x", label := BlockLabel.MAIN_TEXT, box_2d := some [0, 0, 0, 0] }
    (by decide)

/-! ## Claim C9 — upsert image normalization -/

theorem dataUrlMatch_some_starts {s : String} {x : String × String}
    (h : dataUrlMatch s = some x) : jsStartsWith s "data:" = true := by
  simp only [dataUrlMatch] at h
  split at h
  · next hcond => exact hcond
  · exact Option.noConfusion h

theorem upsertPage_match {docId : String} {i : Nat} {p : Page} {mime b64 : String}
    (h : dataUrlMatch p.imageUrl = some (mime, b64)) :
    (upsertPage docId i p).1 = { p with imageUrl :=
        "/api/data/" ++ docId ++ "/" ++
          ("page_" ++ toString (i + 1) ++ "." ++ extFromMime mime) }
    ∧ FsWrite.imageFile ("page_" ++ toString (i + 1) ++ "." ++ extFromMime mime) b64
        ∈ (upsertPage docId i p).2 := by
  have hs := dataUrlMatch_some_starts h
  unfold upsertPage
  dsimp only
  rw [if_pos hs, h]
  exact ⟨rfl, List.mem_append_left _ (List.mem_singleton.mpr rfl)⟩

theorem upsertPage_nomatch {docId : String} {i : Nat} {p : Page}
    (h : dataUrlMatch p.imageUrl = none) :
    (upsertPage docId i p).1 = p := by
  unfold upsertPage
  dsimp only
  by_cases hs : jsStartsWith p.imageUrl "data:" = true
  · rw [if_pos hs, h]
  · rw [if_neg hs]

theorem upsertPagesAux_getElem? (docId : String) :
    ∀ (ps : List Page) (i0 j : Nat),
      ((upsertPagesAux docId i0 ps).1)[j]? =
        (ps[j]?).map fun p => (upsertPage docId (i0 + j) p).1 := by
  intro ps
  induction ps with
  | nil =>
      intro i0 j
      simp [upsertPagesAux]
  | cons p rest ih =>
      intro i0 j
      cases j with
      | zero =>
          simp [upsertPagesAux]
      | succ j' =>
          simp only [upsertPagesAux, List.getElem?_cons_succ]
          have harith : i0 + (j' + 1) = (i0 + 1) + j' := by omega
          rw [harith]
          exact ih (i0 + 1) j'

theorem upsertPagesAux_writes_mem (docId : String) :
    ∀ (ps : List Page) (i0 j : Nat) (p : Page), ps[j]? = some p →
      ∀ w ∈ (upsertPage docId (i0 + j) p).2, w ∈ (upsertPagesAux docId i0 ps).2 := by
  intro ps
  induction ps with
  | nil =>
      intro i0 j p hp
      simp at hp
  | cons q rest ih =>
      intro i0 j p hp w hw
      cases j with
      | zero =>
          simp only [List.getElem?_cons_zero, Option.some.injEq] at hp
          subst hp
          simp only [upsertPagesAux]
          exact List.mem_append_left _ hw
      | succ j' =>
          simp only [List.getElem?_cons_succ] at hp
          have harith : i0 + (j' + 1) = (i0 + 1) + j' := by omega
          rw [harith] at hw
          simp only [upsertPagesAux]
          exact List.mem_append_right _ (ih (i0 + 1) j' p hp w hw)

/-- **C9 (amended).**  For a successful upsert of a `type === 'file'`
document: `metadata.json` is written last; every page whose `imageUrl`
matches the normalization regex `/^data:([A-Za-z-+\/]+);base64,(.+)$/` has
its image written to a file and its `imageUrl` rewritten to the on-disk path
`/api/data/<id>/page_<i+1>.<ext>` before the metadata write; but a page whose
`imageUrl` does NOT match the pattern — including `data:` URLs that are not
base64-shaped or whose mime type contains characters outside `[A-Za-z-+/]`
(e.g. digits) — is persisted unchanged, so reading back CAN still yield an
embedded-data reference (see the counterexample); pages of non-`file`
documents are never normalized. -/
theorem c9_upsert_amended (item : Document)
    (hid : ¬ item.id = "") (hty : item.type = "file") :
    ∀ stored ws, upsertDocument item = some (stored, ws) →
      ws.getLast? = some (FsWrite.metaFile stored)
      ∧ (∀ (i : Nat) (p : Page) (mime b64 : String), item.pages[i]? = some p →
          dataUrlMatch p.imageUrl = some (mime, b64) →
          stored.pages[i]? = some { p with imageUrl :=
            "/api/data/" ++ item.id ++ "/" ++
              ("page_" ++ toString (i + 1) ++ "." ++ extFromMime mime) }
          ∧ FsWrite.imageFile ("page_" ++ toString (i + 1) ++ "." ++ extFromMime mime) b64
              ∈ ws)
      ∧ (∀ (i : Nat) (p : Page), item.pages[i]? = some p → dataUrlMatch p.imageUrl = none →
          stored.pages[i]? = some p) := by
  intro stored ws h
  simp only [upsertDocument, hid, if_false, hty, if_true, Option.some.injEq,
    Prod.mk.injEq] at h
  obtain ⟨hst, hws⟩ := h
  subst hst
  subst hws
  refine ⟨?_, ?_, ?_⟩
  · exact List.getLast?_concat _
  · intro i p mime b64 hp hm
    constructor
    · show ((upsertPagesAux item.id 0 item.pages).1)[i]? = _
      rw [upsertPagesAux_getElem? item.id item.pages 0 i, hp, Option.map_some',
        Nat.zero_add, (upsertPage_match hm).1]
    · have hmem := (@upsertPage_match item.id i p mime b64 hm).2
      have hmem2 : FsWrite.imageFile
          ("page_" ++ toString (i + 1) ++ "." ++ extFromMime mime) b64
          ∈ (upsertPagesAux item.id 0 item.pages).2 := by
        apply upsertPagesAux_writes_mem item.id item.pages 0 i p hp
        rw [Nat.zero_add]
        exact hmem
      exact List.mem_append_left _ hmem2
  · intro i p hp hm
    show ((upsertPagesAux item.id 0 item.pages).1)[i]? = _
    rw [upsertPagesAux_getElem? item.id item.pages 0 i, hp, Option.map_some',
      Nat.zero_add, upsertPage_nomatch hm]

/-- Witness for C9 (amended): upserting a file item whose single page is the
base64 data URL `data:image/png;base64,AAA` rewrites the page to the path
`/api/data/d/page_1.png` and records the image write. -/
theorem c9_upsert_amended_witness :
    exUpsertStored.pages[0]? = some { exUpsertPage0 with imageUrl :=
      "/api/data/" ++ exUpsertItem.id ++ "/" ++
        ("page_" ++ toString (0 + 1) ++ "." ++ extFromMime "image/png") }
    ∧ FsWrite.imageFile ("page_" ++ toString (0 + 1) ++ "." ++ extFromMime "image/png") "AAA"
        ∈ exUpsertWrites :=
  (c9_upsert_amended exUpsertItem (by decide) rfl exUpsertStored exUpsertWrites
    (by decide)).2.1 0 exUpsertPage0 "image/png" "AAA" (by decide) (by decide)

/-- **C9 counterexample.**  An accepted upsert of a `type = "file"` document
whose page image is the embedded-data URL `data:text/plain,hello` (a `data:`
URL not matching the base64 normalization regex) stores the page with its
embedded-data `imageUrl` unchanged: reading the document back yields an
embedded-data image reference. -/
theorem c9_upsert_counterexample :
    (upsertDocument exUpsertBadItem).map (fun r => r.1.pages.map Page.imageUrl)
      = some ["data:text/plain,hello"]
    ∧ jsStartsWith "data:text/plain,hello" "data:" = true := by
  decide

/-! ## Claim C5 — concurrency guard -/

/-- **C5 (confirmed).**  At most one background run per document id: a call
while the id is in the running set returns immediately as a no-op — the guard
set is unchanged and no run (hence no write) is performed; and when the id is
not in the set, the call removes the id again on every exit path (metadata-
read abort with its explicit delete, and the engine run — normal completion
or fatal — through the `finally` delete), so the guard set after the call
equals the one before. -/
theorem c5_concurrency_guard (active : List String) (docId : String)
    (metadataOk : Bool) (diskDoc : Document)
    (outcome : Nat → PageOutcome) (wfail : Nat → Bool) :
    (docId ∈ active →
      processDocumentBackground active docId metadataOk diskDoc outcome wfail
        = (active, none))
    ∧ (docId ∉ active →
      (processDocumentBackground active docId metadataOk diskDoc outcome wfail).1
        = active) := by
  constructor
  · intro hmem
    unfold processDocumentBackground
    rw [if_pos hmem]
  · intro hmem
    unfold processDocumentBackground
    rw [if_neg hmem]
    dsimp only
    by_cases hok : metadataOk = true
    · rw [if_pos hok]
      exact List.erase_cons_head docId active
    · rw [if_neg hok]
      rw [List.erase_cons_head, List.erase_of_not_mem hmem]

/-- Witness for C5: a second call on a running id is a no-op; a call on a
fresh id restores the guard set. -/
theorem c5_concurrency_guard_witness :
    processDocumentBackground ["a"] "a" true exDocEmpty exOutcomeOkEmpty exNoWriteFail
      = (["a"], none)
    ∧ (processDocumentBackground ["a"] "b" true exDocEmpty exOutcomeOkEmpty
        exNoWriteFail).1 = ["a"] :=
  ⟨(c5_concurrency_guard ["a"] "a" true exDocEmpty exOutcomeOkEmpty exNoWriteFail).1
      (by decide),
   (c5_concurrency_guard ["a"] "b" true exDocEmpty exOutcomeOkEmpty exNoWriteFail).2
      (by decide)⟩

/-! ## Claim C4 — resume never re-invokes OCR on completed pages -/

theorem pageCatch_ocr {wfail : Nat → Bool} {i : Nat} {st st' : RunState}
    (h : pageCatch wfail i st = Except.ok st' ∨
         pageCatch wfail i st = Except.error st') :
    st'.ocrCalls = st.ocrCalls := by
  rcases h with h | h
  · unfold pageCatch at h
    rw [writeMeta_ok_shape h]
  · unfold pageCatch at h
    rw [writeMeta_err_shape h]

theorem visitPage_ocr {outcome : Nat → PageOutcome} {wfail : Nat → Bool}
    {i : Nat} {st st' : RunState}
    (h : visitPage outcome wfail i st = Except.ok st' ∨
         visitPage outcome wfail i st = Except.error st') :
    st'.ocrCalls = st.ocrCalls ∨ st'.ocrCalls = st.ocrCalls ++ [i] := by
  cases houtcome : outcome i with
  | imageMissing =>
      simp only [visitPage, houtcome] at h
      exact Or.inl (pageCatch_ocr h)
  | ocrError =>
      simp only [visitPage, houtcome] at h
      exact Or.inr (pageCatch_ocr h)
  | ok blocks =>
      simp only [visitPage, houtcome] at h
      cases hmd : writeMd wfail ("page_" ++ toString (i + 1) ++ ".md")
          (blocksToMarkdown blocks) { st with
            ocrCalls := st.ocrCalls ++ [i],
            doc := okDoc i blocks st.doc } with
      | error stE =>
          simp only [hmd] at h
          have he := writeMd_err_shape hmd
          have := pageCatch_ocr h
          rw [this, he]
          exact Or.inr rfl
      | ok st1 =>
          simp only [hmd] at h
          have h1 := writeMd_ok_shape hmd
          cases hmeta : writeMeta wfail st1 with
          | error stE =>
              simp only [hmeta] at h
              have he := writeMeta_err_shape hmeta
              have := pageCatch_ocr h
              rw [this, he, h1]
              exact Or.inr rfl
          | ok st2 =>
              simp only [hmeta] at h
              rcases h with h | h
              · cases h
                have h2 := writeMeta_ok_shape hmeta
                rw [h2, h1]
                exact Or.inr rfl
              · exact Except.noConfusion h

theorem processPages_ocr {outcome : Nat → PageOutcome} {wfail : Nat → Bool} :
    ∀ (ps : List Page) (i : Nat) (st st' : RunState),
      (processPages outcome wfail ps i st = Except.ok st' ∨
       processPages outcome wfail ps i st = Except.error st') →
      ∀ j, j ∈ st'.ocrCalls →
        j ∈ st.ocrCalls ∨
        ∃ jj p, ps[jj]? = some p ∧ p.status ≠ PageStatus.completed ∧ j = i + jj := by
  intro ps
  induction ps with
  | nil =>
      intro i st st' h j hj
      rcases h with h | h
      · simp only [processPages] at h
        cases h
        exact Or.inl hj
      · simp only [processPages] at h
        exact Except.noConfusion h
  | cons p rest ih =>
      intro i st st' h j hj
      by_cases hcomp : p.status = PageStatus.completed
      · rcases h with h | h <;> simp only [processPages, if_pos hcomp] at h
        all_goals {
          rcases ih (i + 1) st st' (by first | exact Or.inl h | exact Or.inr h) j hj with
            hmem | ⟨jj, q, hq, hqc, hj'⟩
          · exact Or.inl hmem
          · exact Or.inr ⟨jj + 1, q, by simpa using hq, hqc, by omega⟩
        }
      · cases hvis : visitPage outcome wfail i st with
        | error stE =>
            rcases h with h | h <;> simp only [processPages, if_neg hcomp, hvis] at h
            · exact Except.noConfusion h
            · cases h
              rcases visitPage_ocr (Or.inr hvis) with hocr | hocr <;> rw [hocr] at hj
              · exact Or.inl hj
              · rcases List.mem_append.mp hj with hj' | hj'
                · exact Or.inl hj'
                · refine Or.inr ⟨0, p, by simp, hcomp, ?_⟩
                  have := List.mem_singleton.mp hj'
                  omega
        | ok st1 =>
            rcases h with h | h <;> simp only [processPages, if_neg hcomp, hvis] at h
            all_goals {
              rcases ih (i + 1) st1 st' (by first | exact Or.inl h | exact Or.inr h) j hj with
                hmem | ⟨jj, q, hq, hqc, hj'⟩
              · rcases visitPage_ocr (Or.inl hvis) with hocr | hocr <;> rw [hocr] at hmem
                · exact Or.inl hmem
                · rcases List.mem_append.mp hmem with hj' | hj'
                  · exact Or.inl hj'
                  · refine Or.inr ⟨0, p, by simp, hcomp, ?_⟩
                    have := List.mem_singleton.mp hj'
                    omega
              · exact Or.inr ⟨jj + 1, q, by simpa using hq, hqc, by omega⟩
            }

theorem markProcessing_ok_ocr {wfail : Nat → Bool} {doc : Document} {st1 : RunState}
    (h : markProcessing wfail doc = Except.ok st1) : st1.ocrCalls = [] := by
  unfold markProcessing at h
  split at h
  · cases h
    rfl
  · rw [writeMeta_ok_shape h]
    rfl

theorem markProcessing_err_ocr {wfail : Nat → Bool} {doc : Document} {stE : RunState}
    (h : markProcessing wfail doc = Except.error stE) : stE.ocrCalls = [] := by
  unfold markProcessing at h
  split at h
  · exact Except.noConfusion h
  · rw [writeMeta_err_shape h]
    rfl

/-- **C4 (confirmed).**  The Gemini call is only ever invoked on a page whose
status at entry is not `'completed'`: the page loop skips completed pages
before reading the image or calling the model, so resuming a document never
re-invokes the OCR adapter on pages `0..k` already `Completed`. -/
theorem c4_resume_skips_completed (doc : Document) (outcome : Nat → PageOutcome)
    (wfail : Nat → Bool) :
    ∀ j ∈ (runEngine outcome wfail doc).ocrCalls,
      ∃ p, doc.pages[j]? = some p ∧ p.status ≠ PageStatus.completed := by
  intro j hj
  have hjb : ∃ stb, (runBody outcome wfail doc = Except.ok stb ∨
      runBody outcome wfail doc = Except.error stb) ∧ j ∈ stb.ocrCalls := by
    cases hb : runBody outcome wfail doc with
    | ok st =>
        exact ⟨st, Or.inl rfl, by simpa [runEngine, hb] using hj⟩
    | error st =>
        refine ⟨st, Or.inr rfl, ?_⟩
        simp only [runEngine, hb] at hj
        by_cases hw : wfail st.wc
        · rw [if_pos hw] at hj
          exact hj
        · rw [if_neg hw] at hj
          exact hj
  obtain ⟨stb, hb, hjs⟩ := hjb
  have key : ∀ st1 st2, markProcessing wfail doc = Except.ok st1 →
      (processPages outcome wfail doc.pages 0 st1 = Except.ok st2 ∨
       processPages outcome wfail doc.pages 0 st1 = Except.error st2) →
      j ∈ st2.ocrCalls →
      ∃ p, doc.pages[j]? = some p ∧ p.status ≠ PageStatus.completed := by
    intro st1 st2 hm hl hjj
    rcases processPages_ocr doc.pages 0 st1 st2 hl j hjj with hmem | ⟨jj, q, hq, hqc, hj'⟩
    · rw [markProcessing_ok_ocr hm] at hmem
      exact absurd hmem (List.not_mem_nil j)
    · subst hj'
      simp only [Nat.zero_add]
      exact ⟨q, hq, hqc⟩
  rcases hb with hb | hb
  · cases hm : markProcessing wfail doc with
    | error stE =>
        simp only [runBody, hm] at hb
        exact Except.noConfusion hb
    | ok st1 =>
        cases hl : processPages outcome wfail doc.pages 0 st1 with
        | error stE =>
            simp only [runBody, hm, hl] at hb
            exact Except.noConfusion hb
        | ok st2 =>
            simp only [runBody, hm, hl] at hb
            have hocr : stb.ocrCalls = st2.ocrCalls := by
              unfold finalizeStatus at hb
              rw [writeMeta_ok_shape hb]
            rw [hocr] at hjs
            exact key st1 st2 hm (Or.inl hl) hjs
  · cases hm : markProcessing wfail doc with
    | error stE =>
        simp only [runBody, hm] at hb
        cases hb
        rw [markProcessing_err_ocr hm] at hjs
        exact absurd hjs (List.not_mem_nil j)
    | ok st1 =>
        cases hl : processPages outcome wfail doc.pages 0 st1 with
        | error stE =>
            simp only [runBody, hm, hl] at hb
            cases hb
            exact key st1 _ hm (Or.inr hl) hjs
        | ok st2 =>
            simp only [runBody, hm, hl] at hb
            have hocr : stb.ocrCalls = st2.ocrCalls := by
              unfold finalizeStatus at hb
              rw [writeMeta_err_shape hb]
            rw [hocr] at hjs
            exact key st1 st2 hm (Or.inl hl) hjs

/-- Witness for C4: resuming `exDocResume` (page 0 completed, page 1 pending)
invokes OCR only on page 1, a non-completed page. -/
theorem c4_resume_skips_completed_witness :
    ∃ p, exDocResume.pages[1]? = some p ∧ p.status ≠ PageStatus.completed :=
  c4_resume_skips_completed exDocResume exOutcomeOkEmpty exNoWriteFail 1 (by decide)

/-! ## Claim C3 — per-page failure isolation (failure-free storage) -/

theorem visitPage_ff {outcome : Nat → PageOutcome} {i : Nat} {st : RunState} :
    ∃ st', visitPage outcome exNoWriteFail i st = Except.ok st' ∧
      st'.doc.pages = updatePage st.doc.pages i (visitUpd (outcome i)) := by
  cases houtcome : outcome i with
  | imageMissing =>
      simp only [visitPage, houtcome]
      exact ⟨_, rfl, rfl⟩
  | ocrError =>
      simp only [visitPage, houtcome]
      exact ⟨_, rfl, rfl⟩
  | ok blocks =>
      simp only [visitPage, houtcome]
      exact ⟨_, rfl, rfl⟩

theorem processPages_ff_ok {outcome : Nat → PageOutcome} :
    ∀ (ps : List Page) (i : Nat) (st : RunState),
      ∃ st', processPages outcome exNoWriteFail ps i st = Except.ok st' := by
  intro ps
  induction ps with
  | nil =>
      intro i st
      exact ⟨st, rfl⟩
  | cons p rest ih =>
      intro i st
      by_cases hcomp : p.status = PageStatus.completed
      · obtain ⟨st', h⟩ := ih (i + 1) st
        exact ⟨st', by simp only [processPages, if_pos hcomp]; exact h⟩
      · obtain ⟨st1, hvis, -⟩ := @visitPage_ff outcome i st
        obtain ⟨st', h⟩ := ih (i + 1) st1
        exact ⟨st', by simp only [processPages, if_neg hcomp, hvis]; exact h⟩

theorem processPages_ff_getElem_lt {outcome : Nat → PageOutcome} :
    ∀ (ps : List Page) (i : Nat) (st st' : RunState),
      processPages outcome exNoWriteFail ps i st = Except.ok st' →
      ∀ k, k < i → st'.doc.pages[k]? = st.doc.pages[k]? := by
  intro ps
  induction ps with
  | nil =>
      intro i st st' h k _
      simp only [processPages] at h
      cases h
      rfl
  | cons p rest ih =>
      intro i st st' h k hk
      by_cases hcomp : p.status = PageStatus.completed
      · simp only [processPages, if_pos hcomp] at h
        exact ih (i + 1) st st' h k (by omega)
      · obtain ⟨st1, hvis, hpages⟩ := @visitPage_ff outcome i st
        simp only [processPages, if_neg hcomp, hvis] at h
        have hrec := ih (i + 1) st1 st' h k (by omega)
        rw [hrec, hpages]
        exact updatePage_getElem?_ne _ st.doc.pages i k (by omega)

theorem processPages_ff_statuses {outcome : Nat → PageOutcome} :
    ∀ (ps : List Page) (i : Nat) (st st' : RunState),
      processPages outcome exNoWriteFail ps i st = Except.ok st' →
      st.doc.pages.drop i = ps →
      ∀ (jj : Nat) (p : Page), ps[jj]? = some p →
        st'.doc.pages[i + jj]? =
          some (if p.status = PageStatus.completed then p
                else visitUpd (outcome (i + jj)) p) := by
  intro ps
  induction ps with
  | nil =>
      intro i st st' _ _ jj p hp
      simp at hp
  | cons p0 rest ih =>
      intro i st st' h hdrop jj p hp
      have hi : st.doc.pages[i]? = some p0 := by
        have hd := List.getElem?_drop st.doc.pages i 0
        rw [hdrop] at hd
        simpa using hd.symm
      have hdrop1 : st.doc.pages.drop (i + 1) = rest := by
        have h2 := List.drop_drop 1 i st.doc.pages
        rw [hdrop] at h2
        simpa using h2.symm
      by_cases hcomp : p0.status = PageStatus.completed
      · simp only [processPages, if_pos hcomp] at h
        cases jj with
        | zero =>
            simp only [List.getElem?_cons_zero, Option.some.injEq] at hp
            subst hp
            have hpre := processPages_ff_getElem_lt rest (i + 1) st st' h i (by omega)
            rw [Nat.add_zero, hpre, hi, if_pos hcomp]
        | succ jj' =>
            simp only [List.getElem?_cons_succ] at hp
            have hrec := ih (i + 1) st st' h hdrop1 jj' p hp
            rw [show i + (jj' + 1) = (i + 1) + jj' by omega]
            exact hrec
      · obtain ⟨st1, hvis, hpages⟩ := @visitPage_ff outcome i st
        simp only [processPages, if_neg hcomp, hvis] at h
        cases jj with
        | zero =>
            simp only [List.getElem?_cons_zero, Option.some.injEq] at hp
            subst hp
            have hpre := processPages_ff_getElem_lt rest (i + 1) st1 st' h i (by omega)
            rw [Nat.add_zero, hpre, hpages, updatePage_getElem?_eq, hi, Option.map_some',
              if_neg hcomp]
        | succ jj' =>
            simp only [List.getElem?_cons_succ] at hp
            have hdrop1' : st1.doc.pages.drop (i + 1) = rest := by
              rw [hpages, updatePage_drop]
              exact hdrop1
            have hrec := ih (i + 1) st1 st' h hdrop1' jj' p hp
            rw [show i + (jj' + 1) = (i + 1) + jj' by omega]
            exact hrec

/-- **C3 (confirmed).**  With working storage, a per-page failure (missing
image file or a throwing Gemini call) at page `i` marks exactly page `i`
`Error` and the run continues: on a fresh document every page's final state
is determined pointwise by its own outcome (`visitUpd`), `processedPages`
reaches `pages.length`, and in the 3-page scenario with OCR failing on page 2
only, the snapshot trace shows page 2's error persisted with
`processedPages = 2` before page 3 is processed, ending `Ready` with page
statuses `[Completed, Error, Completed]` and `processedPages = 3`. -/
theorem c3_per_page_failure_isolation :
    (∀ (doc : Document) (outcome : Nat → PageOutcome),
      (∀ p ∈ doc.pages, p.status = PageStatus.pending) →
      (runEngine outcome exNoWriteFail doc).fatal = false
      ∧ (∀ (j : Nat) (p : Page), doc.pages[j]? = some p →
          (runEngine outcome exNoWriteFail doc).disk.pages[j]? =
            some (visitUpd (outcome j) p))
      ∧ (doc.pages ≠ [] →
          (runEngine outcome exNoWriteFail doc).disk.processedPages = doc.pages.length))
    ∧ ((metaSnapshots (runEngine exOutcome3 exNoWriteFail exDocFresh3).events).map
        (fun d => (d.status, d.processedPages, d.pages.map Page.status)) =
        [(DocStatus.processing, 0,
            [PageStatus.pending, PageStatus.pending, PageStatus.pending]),
         (DocStatus.processing, 1,
            [PageStatus.completed, PageStatus.pending, PageStatus.pending]),
         (DocStatus.processing, 2,
            [PageStatus.completed, PageStatus.error, PageStatus.pending]),
         (DocStatus.processing, 3,
            [PageStatus.completed, PageStatus.error, PageStatus.completed]),
         (DocStatus.ready, 3,
            [PageStatus.completed, PageStatus.error, PageStatus.completed])]
      ∧ (runEngine exOutcome3 exNoWriteFail exDocFresh3).disk.status = DocStatus.ready
      ∧ (runEngine exOutcome3 exNoWriteFail exDocFresh3).disk.pages.map Page.status =
          [PageStatus.completed, PageStatus.error, PageStatus.completed]
      ∧ (runEngine exOutcome3 exNoWriteFail exDocFresh3).disk.processedPages = 3) := by
  constructor
  · intro doc outcome hfresh
    have hm1 : ∃ st1, markProcessing exNoWriteFail doc = Except.ok st1 := by
      unfold markProcessing
      by_cases hst : doc.status = DocStatus.processing
      · rw [if_pos hst]
        exact ⟨_, rfl⟩
      · rw [if_neg hst]
        exact ⟨_, rfl⟩
    obtain ⟨st1, hm⟩ := hm1
    obtain ⟨st2, hl⟩ := processPages_ff_ok doc.pages 0 st1
    have hfin : ∃ stF, finalizeStatus exNoWriteFail st2 = Except.ok stF := by
      unfold finalizeStatus
      exact ⟨_, rfl⟩
    obtain ⟨stF, hfin'⟩ := hfin
    have hb : runBody outcome exNoWriteFail doc = Except.ok stF := by
      simp only [runBody, hm]
      rw [hl]
      exact hfin'
    have hfatal : (runEngine outcome exNoWriteFail doc).fatal = false := by
      simp [runEngine, hb]
    obtain ⟨st1', st2', hm', hl', hdisk⟩ := runBody_ok_final hb
    rw [hm] at hm'
    cases hm'
    rw [hl] at hl'
    cases hl'
    obtain ⟨st', hb2, heq⟩ := runEngine_fatal_false hfatal
    rw [hb] at hb2
    cases hb2
    have hdrop0 : st1.doc.pages.drop 0 = doc.pages := by
      rw [markProcessing_ok_doc hm]
      exact List.drop_zero _
    refine ⟨hfatal, ?_, ?_⟩
    · intro j p hp
      rw [heq]
      dsimp only
      rw [hdisk]
      show st2.doc.pages[j]? = _
      have hs := processPages_ff_statuses doc.pages 0 st1 st2 hl hdrop0 j p hp
      rw [Nat.zero_add] at hs
      rw [hs, if_neg]
      intro hc
      have hpend := hfresh p (List.getElem?_mem hp)
      rw [hpend] at hc
      exact PageStatus.noConfusion hc
    · intro hne
      rw [heq]
      dsimp only
      rw [hdisk]
      show st2.doc.processedPages = doc.pages.length
      have hlast : ∀ q, doc.pages.getLast? = some q → q.status ≠ PageStatus.completed := by
        intro q hq hc
        have hpend := hfresh q (List.mem_of_mem_getLast? hq)
        rw [hpend] at hc
        exact PageStatus.noConfusion hc
      have hpp := processPages_last_pp doc.pages 0 st1 st2 hl hne hlast
      omega
  · refine ⟨by decide, by decide, by decide, by decide⟩

/-- Witness for C3: the 3-page scenario instantiates the general part — page
1 (the failing page) ends `Error` via `visitUpd`, and `processedPages`
reaches `pages.length`. -/
theorem c3_per_page_failure_isolation_witness :
    (runEngine exOutcome3 exNoWriteFail exDocFresh3).disk.pages[1]? =
      some (visitUpd (exOutcome3 1) { imageUrl := "p2" })
    ∧ (runEngine exOutcome3 exNoWriteFail exDocFresh3).disk.processedPages =
      exDocFresh3.pages.length := by
  have hg := (c3_per_page_failure_isolation).1 exDocFresh3 exOutcome3 (by decide)
  exact ⟨hg.2.1 1 { imageUrl := "p2" } (by decide), hg.2.2 (by decide)⟩

end DocuClean
